import Mathlib

/-!
Shallow embedding of `milvus/client/pool.py`: the `Duration`,
`ConnectionRecord`, `ConnectionPool` and `ScopedConnection` classes.

Modelling conventions:
* `time.time()` values are passed in explicitly as `Nat` timestamps.
* Python ints are `Int` (`_used_conn`, `_pool_size`, `conn_id`).
* The idle store `self._pool = queue.Queue()` is an unbounded FIFO,
  modelled as a `List ConnectionRecord` whose head is the front:
  `get` pops the head, `put` appends at the tail and never raises
  `queue.Full` (the queue has no `maxsize`).
* `self.durations` is a `defaultdict(list)` keyed by the object passed to
  `record_duration` (a `ConnectionRecord` or Python's `None`); keys are
  modelled as `Option Int` (`some connId` for a record, `none` for `None`),
  record identities being unique `conn_id`s, and the dict as an
  insertion-ordered association list.
* The transport handlers (`GrpcHandler`/`HttpHandler`) are opaque to the
  pool; `ConnectionRecord.connection` returns the record's own transport,
  modelled by the record itself.
* `fetch` is recursive (`fetch(block=False)` can call `fetch(block=True)`,
  and `_inc_connection` can call `fetch(block=True)`); it is embedded with
  explicit fuel.  Single-caller semantics: a blocking `get` on an empty
  queue waits the full `wait_timeout` and then raises `queue.Empty`
  (nobody else puts); the `waited` flag of a `FetchResult` records whether
  such a blocking timed wait was executed.
-/

namespace PoolSpec

/-- Embeds `Duration`: start/stop elapsed-time measurement (`pool.py` lines 13-30). -/
structure Duration where
  start_ts : Nat
  end_ts : Option Nat
deriving DecidableEq, Repr

/-- Embeds `Duration.__init__`: records the start timestamp, end unset. -/
def Duration.new (now : Nat) : Duration := ⟨now, none⟩

/-- Embeds `Duration.stop`: sets `end_ts` once; returns `false` if already set. -/
def Duration.stop (d : Duration) (now : Nat) : Duration × Bool :=
  match d.end_ts with
  | some _ => (d, false)
  | none => ({ d with end_ts := some now }, true)

/-- Embeds `Duration.value`: elapsed time, `None` until stopped. -/
def Duration.value (d : Duration) : Option Int :=
  match d.end_ts with
  | none => none
  | some e => some ((e : Int) - (d.start_ts : Int))

/-- Embeds `ConnectionRecord` (`pool.py` lines 33-59): owns one transport
connection; the transport itself is opaque and not modelled. -/
structure ConnectionRecord where
  conn_id : Int
  uri : String
  recycle : Int
  last_use_time : Nat
deriving DecidableEq, Repr

/-- Embeds `ConnectionRecord.connection`: returns the underlying transport
(modelled by the record itself; the optional pre-ping probe is network
I/O against the opaque handler and is not modelled). -/
def ConnectionRecord.connection (r : ConnectionRecord) : ConnectionRecord := r

/-- The `defaultdict(list)` stats store: insertion-ordered association
list from record identity (`some conn_id`, or `none` for Python `None`)
to that identity's recorded durations. -/
abbrev DurStore := List (Option Int × List Duration)

/-- Dict lookup with the `defaultdict` default: missing key reads as `[]`. -/
def dlookup : DurStore → Option Int → List Duration
  | [], _ => []
  | e :: rest, k => if e.1 = k then e.2 else dlookup rest k

/-- Dict assignment: replaces the entry in place if the key is present,
otherwise appends it (Python dicts preserve insertion order). -/
def dstore : DurStore → Option Int → List Duration → DurStore
  | [], k, v => [(k, v)]
  | e :: rest, k, v => if e.1 = k then (k, v) :: rest else e :: dstore rest k v

/-- The history cap used by `record_duration` (`pool.py` line 115). -/
def historyCap : Nat := 10000

/-- Embeds `ConnectionPool.record_duration` (`pool.py` lines 114-118), at the
level of the stats store: if the key's history already has at least
10000 entries, `pop(0)` the oldest, then append the new duration. -/
def record_duration (m : DurStore) (k : Option Int) (d : Duration) : DurStore :=
  let cur := dlookup m k
  let cur := if historyCap ≤ cur.length then cur.tail else cur
  dstore m k (cur ++ [d])

/-- One per-identity entry of `stats()` output. -/
structure StatEntry where
  total_time : Int
  called_times : Nat
deriving DecidableEq, Repr

/-- The dict returned by `stats()` (`pool.py` lines 120-134). -/
structure StatsOut where
  connections : List (Option Int × StatEntry)
  maxTime : Int
  num : Nat
deriving DecidableEq, Repr

/-- Embeds `sum(d.value for d in durations)`: fails (Python `TypeError`) if any
duration is unstopped (`value` is `None`). -/
def sumValues : List Duration → Option Int
  | [] => some 0
  | d :: ds =>
    match d.value, sumValues ds with
    | some v, some s => some (v + s)
    | _, _ => none

/-- The per-identity loop of `stats()`: builds `(identity, entry)` pairs
in dict iteration order; fails if any total is undefined. -/
def statsEntries : DurStore → Option (List (Option Int × StatEntry))
  | [] => some []
  | (k, ds) :: rest =>
    match sumValues ds, statsEntries rest with
    | some t, some es => some ((k, ⟨t, ds.length⟩) :: es)
    | _, _ => none

/-- Python's `max(list)`: `none` on the empty list (`ValueError`). -/
def listMax : List Int → Option Int
  | [] => none
  | t :: ts => some (ts.foldl max t)

/-- Embeds `ConnectionPool.stats` (`pool.py` lines 120-134): per-identity totals
and call counts, the pool-wide maximum total, and the number of tracked
identities; `none` models the exception paths (empty `max`, `None` in a
sum). -/
def stats (m : DurStore) : Option StatsOut :=
  match statsEntries m with
  | none => none
  | some es =>
    match listMax (es.map (fun e => e.2.total_time)) with
    | none => none
    | some mx => some ⟨es, mx, m.length⟩

/-- Embeds `ConnectionPool` state (`pool.py` lines 62-77). -/
structure ConnectionPool where
  uri : String
  pool_size : Int
  recycle : Int
  wait_timeout : Nat
  used_conn : Int
  pool : List ConnectionRecord
  durations : DurStore
deriving DecidableEq, Repr

/-- Embeds `ConnectionPool.__init__`: empty queue, zero used counter, empty stats. -/
def ConnectionPool.init (uri : String) (pool_size : Int) (recycle : Int)
    (wait_timeout : Nat) : ConnectionPool :=
  { uri := uri, pool_size := pool_size, recycle := recycle,
    wait_timeout := wait_timeout, used_conn := 0, pool := [], durations := [] }

/-- Embeds `ConnectionPool._inc_used` (`pool.py` lines 80-86): atomic
check-and-increment of `_used_conn`, failing once it has reached
`_pool_size`. -/
def ConnectionPool.inc_used (p : ConnectionPool) : ConnectionPool × Bool :=
  if p.used_conn < p.pool_size then
    ({ p with used_conn := p.used_conn + 1 }, true)
  else (p, false)

/-- Embeds `ConnectionPool._dec_used` (`pool.py` lines 88-93): guarded decrement.
Defined in the source but called from no code path. -/
def ConnectionPool.dec_used (p : ConnectionPool) : ConnectionPool × Bool :=
  if p.used_conn = 0 then (p, false)
  else ({ p with used_conn := p.used_conn - 1 }, true)

/-- Embeds `ConnectionPool._full`: `_used_conn >= _pool_size`. -/
def ConnectionPool.isFull (p : ConnectionPool) : Bool :=
  p.pool_size ≤ p.used_conn

/-- Embeds `ConnectionPool._empty`: `qsize() <= 0 and _used_conn <= 0`. -/
def ConnectionPool.isEmpty (p : ConnectionPool) : Bool :=
  p.pool.length ≤ 0 && p.used_conn ≤ 0

/-- Embeds `ConnectionPool._create_connection` (`pool.py` lines 103-106): builds
a new `ConnectionRecord` with `conn_id = _used_conn - 1` (read after the
increment). -/
def ConnectionPool.create_connection (p : ConnectionPool) (now : Nat) :
    ConnectionRecord :=
  { conn_id := p.used_conn - 1, uri := p.uri, recycle := p.recycle,
    last_use_time := now }

/-- Embeds `ConnectionPool.release` (`pool.py` lines 160-164): `put` on the
unbounded idle queue; `queue.Full` can never be raised, so the
`except: pass` branch is dead and the record is always enqueued. -/
def ConnectionPool.release (p : ConnectionPool) (r : ConnectionRecord) :
    ConnectionPool :=
  { p with pool := p.pool ++ [r] }

/-- Embeds `ConnectionPool.count` (`pool.py` lines 136-138): returns `_used_conn`. -/
def ConnectionPool.count (p : ConnectionPool) : Int := p.used_conn

/-- Embeds `ConnectionPool.activate_count` (`pool.py` lines 140-142). -/
def ConnectionPool.activate_count (p : ConnectionPool) : Int :=
  p.used_conn - (p.pool.length : Int)

/-- How a `fetch` call ended: a fresh record was created
(`_inc_connection` succeeded), an idle record was popped from the queue,
`ConnectionPoolError("Connection pool is full.")` was raised, or the fuel
ran out (the source can actually recurse forever when `pool_size <= 0`). -/
inductive FetchOutcome where
  | gotNew (r : ConnectionRecord)
  | gotIdle (r : ConnectionRecord)
  | poolError
  | outOfFuel
deriving DecidableEq, Repr

/-- Result of a `fetch` call: the pool state after the call, the outcome,
and whether a blocking timed wait on the empty idle queue (up to
`wait_timeout`) was executed on the way. -/
structure FetchResult where
  pool : ConnectionPool
  outcome : FetchOutcome
  waited : Bool
deriving DecidableEq, Repr

/-- Embeds `ConnectionPool.fetch` (`pool.py` lines 144-158) with
`_inc_connection` (lines 108-112) inlined, under single-caller semantics
(no concurrent producer, so a blocking `get` on an empty queue times out).
Steps, mirroring the source:
1. if `_empty()`: `_inc_connection()` — on a successful `_inc_used`,
   create a record; otherwise `fetch(block=True)`;
2. `self._pool.get(block=block, timeout=self._wait_timeout)` — pops the
   front if the queue is nonempty; on an empty queue raises `queue.Empty`
   (immediately when `block=False`, after waiting `wait_timeout` when
   `block=True`);
3. on `queue.Empty` with `block=True`: raise `ConnectionPoolError`;
4. if `_full()`: `fetch(block=True)`;
5. otherwise `_inc_connection()`. -/
def fetchAux : Nat → ConnectionPool → Bool → Nat → FetchResult
  | 0, p, _, _ => ⟨p, .outOfFuel, false⟩
  | fuel + 1, p, block, now =>
    if p.isEmpty then
      let (p', ok) := p.inc_used
      if ok then ⟨p', .gotNew (p'.create_connection now), false⟩
      else fetchAux fuel p' true now
    else
      match p.pool with
      | c :: rest => ⟨{ p with pool := rest }, .gotIdle c, false⟩
      | [] =>
        if block then ⟨p, .poolError, true⟩
        else if p.isFull then fetchAux fuel p true now
        else
          let (p', ok) := p.inc_used
          if ok then ⟨p', .gotNew (p'.create_connection now), false⟩
          else fetchAux fuel p' true now

/-- Fuel sufficient for every terminating path of `fetch` (the deepest
terminating chain is `fetch(False) → fetch(True)`, depth 2). -/
def fetchFuel : Nat := 4

/-- Embeds `ScopedConnection` state (`pool.py` lines 167-172): `_connection`,
`_duration`, `_closed`. -/
structure ScopedConnection where
  record : Option ConnectionRecord
  duration : Option Duration
  closed : Bool
deriving DecidableEq, Repr

/-- Embeds `ScopedConnection.__init__`: open handle on a record, fresh running
duration. -/
def ScopedConnection.new (r : ConnectionRecord) (now : Nat) : ScopedConnection :=
  ⟨some r, some (Duration.new now), false⟩

/-- Embeds `ScopedConnection.close` (`pool.py` lines 196-203), faithful to
statement order: release `_connection` if set, set `_connection = None`,
then — if `_duration` is set — stop it and call
`record_duration(self._connection, duration)`; at that point
`self._connection` is already `None`, so the duration is keyed by `none`,
not by the record's identity. -/
def ScopedConnection.close (p : ConnectionPool) (s : ScopedConnection)
    (now : Nat) : ConnectionPool × ScopedConnection :=
  let p1 := match s.record with
    | some r => p.release r
    | none => p
  let p2 := match s.duration with
    | some d => { p1 with durations := record_duration p1.durations none (d.stop now).1 }
    | none => p1
  (p2, { record := none, duration := none, closed := true })

/-- Embeds `ScopedConnection.connection` (`pool.py` lines 183-187): raises
`ValueError("Connection has been closed.")` on a closed handle, else
returns `_connection`. -/
def ScopedConnection.connection (s : ScopedConnection) :
    Except String (Option ConnectionRecord) :=
  if s.closed then Except.error "Connection has been closed."
  else Except.ok s.record

/-- Embeds `ScopedConnection.client` (`pool.py` lines 189-191):
`self.connection().connection()`; an `AttributeError` would follow if the
held record were `None` on an open handle. -/
def ScopedConnection.client (s : ScopedConnection) :
    Except String ConnectionRecord :=
  match s.connection with
  | Except.error e => Except.error e
  | Except.ok (some r) => Except.ok r.connection
  | Except.ok none => Except.error "AttributeError: NoneType has no connection"

/-- Embeds `ScopedConnection.__getattr__` (`pool.py` lines 174-175): forwards an
attribute access to `self.client()`; modelled as the client the attribute
is looked up on, paired with the requested name. -/
def ScopedConnection.forward (s : ScopedConnection) (item : String) :
    Except String (ConnectionRecord × String) :=
  match s.client with
  | Except.error e => Except.error e
  | Except.ok c => Except.ok (c, item)

/-!
Two operation-sequence machines.

The atomic machine covers "any number of callers": every mutation of the
shared pool state in the source happens in one of four atomic pieces —
`_inc_used` and `_dec_used` (each entirely under `self._condition`), and
the thread-safe queue operations `get`/`put`.  Any interleaving of any
number of concurrent `fetch`/`release` callers is therefore some sequence
of these atomic events, so an invariant preserved by each atomic event
holds in every reachable shared state.

The world machine covers whole-call, quiescent-point reasoning: one pool
plus the outstanding `ScopedConnection` handles, stepped by complete
`fetch` and `close` calls.
-/

/-- The atomic mutations of the shared pool state that `fetch`/`release`
code can perform: `_inc_used`, `_dec_used`, a successful queue `get`
(pops the front; a failed `get` mutates nothing), and a queue `put`. -/
inductive AtomicEv where
  | evIncUsed
  | evDecUsed
  | evGet
  | evPut (r : ConnectionRecord)
deriving DecidableEq, Repr

/-- Effect of one atomic event on the pool state. -/
def atomicStep (p : ConnectionPool) : AtomicEv → ConnectionPool
  | .evIncUsed => p.inc_used.1
  | .evDecUsed => p.dec_used.1
  | .evGet => { p with pool := p.pool.tail }
  | .evPut r => p.release r

/-- Run a sequence of atomic events. -/
def atomicRun (p : ConnectionPool) : List AtomicEv → ConnectionPool
  | [] => p
  | e :: evs => atomicRun (atomicStep p e) evs

/-- A world: the pool and every `ScopedConnection` handed out so far
(open or closed). -/
structure World where
  p : ConnectionPool
  handles : List ScopedConnection
deriving DecidableEq, Repr

/-- Whole-call operations on a world: a `fetch` (the returned handle is
appended to `handles`), or a `close` of the `i`-th handle (covering
explicit `close`, `__del__` and end-of-scope, and — since `close` is the
only caller of `release` — every `release`). -/
inductive Op where
  | opFetch (block : Bool)
  | opClose (i : Nat)
deriving DecidableEq, Repr

/-- One whole-call step of a world at time `now`. -/
def World.step (w : World) (now : Nat) : Op → World
  | .opFetch block =>
    let res := fetchAux fetchFuel w.p block now
    match res.outcome with
    | .gotNew r => ⟨res.pool, w.handles ++ [ScopedConnection.new r now]⟩
    | .gotIdle r => ⟨res.pool, w.handles ++ [ScopedConnection.new r now]⟩
    | _ => ⟨res.pool, w.handles⟩
  | .opClose i =>
    match w.handles[i]? with
    | some s =>
      let ps := ScopedConnection.close w.p s now
      ⟨ps.1, w.handles.set i ps.2⟩
    | none => w

/-- Run a sequence of timestamped whole-call operations. -/
def World.run (w : World) : List (Op × Nat) → World
  | [] => w
  | x :: rest => (w.step x.2 x.1).run rest

/-- The world of a freshly constructed pool: no handles outstanding. -/
def World.init (uri : String) (pool_size : Int) (recycle : Int)
    (wait_timeout : Nat) : World :=
  ⟨ConnectionPool.init uri pool_size recycle wait_timeout, []⟩

/-- Number of handles still holding a record (fetched, not yet closed). -/
def World.openCount (w : World) : Nat :=
  w.handles.countP (fun s => s.record.isSome)

/-!  Helper lemmas shared by the claim theorems. -/

/-- Case analysis of a `fetch` call: it pops the front idle record, or
raises `ConnectionPoolError`, or runs out of fuel, or — only when
`_used_conn < _pool_size` — increments the counter and creates a fresh
record; in the last case the pre-state counter was strictly below
capacity. -/
lemma fetchAux_cases (fuel : Nat) (p : ConnectionPool) (block : Bool) (now : Nat) :
    (∃ r rest, p.pool = r :: rest ∧
      fetchAux fuel p block now = ⟨{ p with pool := rest }, .gotIdle r, false⟩) ∨
    (∃ b, fetchAux fuel p block now = ⟨p, .poolError, b⟩) ∨
    fetchAux fuel p block now = ⟨p, .outOfFuel, false⟩ ∨
    (p.used_conn < p.pool_size ∧
      fetchAux fuel p block now =
        ⟨{ p with used_conn := p.used_conn + 1 }, .gotNew
          (ConnectionPool.create_connection { p with used_conn := p.used_conn + 1 } now),
          false⟩) := by
  induction fuel generalizing block with
  | zero => right; right; left; rfl
  | succ fuel ih =>
    by_cases hE : p.isEmpty = true
    · by_cases hc : p.used_conn < p.pool_size
      · right; right; right
        exact ⟨hc, by simp [fetchAux, hE, ConnectionPool.inc_used, hc]⟩
      · have heq : fetchAux (fuel + 1) p block now = fetchAux fuel p true now := by
          simp [fetchAux, hE, ConnectionPool.inc_used, hc]
        rw [heq]; exact ih true
    · have hshape : p.pool = [] ∨ ∃ c rest, p.pool = c :: rest := by
        cases p.pool with
        | nil => exact Or.inl rfl
        | cons c rest => exact Or.inr ⟨c, rest, rfl⟩
      rcases hshape with hp | ⟨c, rest, hp⟩
      · cases block with
        | true => right; left; exact ⟨true, by simp [fetchAux, hE, hp]⟩
        | false =>
          by_cases hF : p.isFull = true
          · have heq : fetchAux (fuel + 1) p false now = fetchAux fuel p true now := by
              simp [fetchAux, hE, hp, hF]
            rw [heq]; exact ih true
          · by_cases hc : p.used_conn < p.pool_size
            · right; right; right
              exact ⟨hc, by simp [fetchAux, hE, hp, hF, ConnectionPool.inc_used, hc]⟩
            · have heq : fetchAux (fuel + 1) p false now = fetchAux fuel p true now := by
                simp [fetchAux, hE, hp, hF, ConnectionPool.inc_used, hc]
              rw [heq]; exact ih true
      · left; exact ⟨c, rest, hp, by simp [fetchAux, hE, hp]⟩

/-- A close call leaves `_used_conn` and `_pool_size` unchanged and
appends the held record (if any) to the idle queue. -/
lemma close_fields (p : ConnectionPool) (s : ScopedConnection) (now : Nat) :
    (ScopedConnection.close p s now).1.used_conn = p.used_conn ∧
    (ScopedConnection.close p s now).1.pool_size = p.pool_size ∧
    (ScopedConnection.close p s now).1.pool =
      p.pool ++ (match s.record with | some r => [r] | none => []) ∧
    (ScopedConnection.close p s now).2 = ⟨none, none, true⟩ := by
  cases hr : s.record with
  | some r =>
    cases hd : s.duration with
    | some d => simp [ScopedConnection.close, hr, hd, ConnectionPool.release]
    | none => simp [ScopedConnection.close, hr, hd, ConnectionPool.release]
  | none =>
    cases hd : s.duration with
    | some d => simp [ScopedConnection.close, hr, hd]
    | none => simp [ScopedConnection.close, hr, hd]

/-- Replacing the `i`-th element shifts `countP` by the difference of the
old and new elements' predicate values. -/
lemma countP_set_eq {α : Type} (P : α → Bool) :
    ∀ (l : List α) (i : Nat) (a b : α), l[i]? = some a →
      (l.set i b).countP P + (if P a then 1 else 0) =
        l.countP P + (if P b then 1 else 0) := by
  intro l
  induction l with
  | nil => intro i a b h; simp at h
  | cons hd tl ih =>
    intro i a b h
    cases i with
    | zero =>
      simp at h
      subst h
      simp [List.countP_cons]
      omega
    | succ i =>
      simp at h
      have := ih i a b h
      simp [List.countP_cons]
      omega

/-- Lookup after an assignment: the assigned key reads the new value. -/
lemma dlookup_dstore_self (m : DurStore) (k : Option Int) (v : List Duration) :
    dlookup (dstore m k v) k = v := by
  induction m with
  | nil => simp [dstore, dlookup]
  | cons e rest ih =>
    by_cases h : e.1 = k
    · simp [dstore, dlookup, h]
    · simp [dstore, dlookup, h, ih]

/-- Lookup after an assignment to a different key is unchanged. -/
lemma dlookup_dstore_ne (m : DurStore) (k k' : Option Int) (v : List Duration)
    (h : k' ≠ k) : dlookup (dstore m k v) k' = dlookup m k' := by
  induction m with
  | nil => simp [dstore, dlookup, Ne.symm h]
  | cons e rest ih =>
    by_cases he : e.1 = k
    · simp [dstore, dlookup, he, Ne.symm h]
    · by_cases he' : e.1 = k'
      · simp [dstore, dlookup, he, he', h]
      · simp [dstore, dlookup, he, he', ih]

/-- What `record_duration` leaves under the recorded key. -/
lemma dlookup_record_duration (m : DurStore) (k : Option Int) (d : Duration) :
    dlookup (record_duration m k d) k =
      (if historyCap ≤ (dlookup m k).length then (dlookup m k).tail
       else dlookup m k) ++ [d] := by
  simp [record_duration, dlookup_dstore_self]

/-- `record_duration` leaves other keys' histories unchanged. -/
lemma dlookup_record_duration_ne (m : DurStore) (k k' : Option Int) (d : Duration)
    (h : k' ≠ k) :
    dlookup (record_duration m k d) k' = dlookup m k' := by
  simp [record_duration, dlookup_dstore_ne _ _ _ _ h]

/-- The seed of a left fold by `max` is below the fold. -/
lemma le_foldl_max (ts : List Int) : ∀ t : Int, t ≤ ts.foldl max t := by
  induction ts with
  | nil => intro t; simp
  | cons a ts ih =>
    intro t
    calc t ≤ max t a := le_max_left t a
    _ ≤ ts.foldl max (max t a) := ih (max t a)

/-- A left fold by `max` is the seed or one of the elements. -/
lemma foldl_max_mem (ts : List Int) : ∀ t : Int,
    ts.foldl max t = t ∨ ts.foldl max t ∈ ts := by
  induction ts with
  | nil => intro t; simp
  | cons a ts ih =>
    intro t
    rcases ih (max t a) with h | h
    · rcases max_choice t a with hm | hm
      · left; simpa [List.foldl_cons, hm] using h.trans hm
      · right; simp only [List.foldl_cons]
        rw [h, hm]; exact List.mem_cons_self a ts
    · right; exact List.mem_cons_of_mem a h

/-- Every element is below a left fold by `max`. -/
lemma mem_le_foldl_max (ts : List Int) : ∀ (t x : Int), x ∈ ts →
    x ≤ ts.foldl max t := by
  induction ts with
  | nil => intro t x h; simp at h
  | cons a ts ih =>
    intro t x h
    rcases List.mem_cons.mp h with h | h
    · subst h
      calc x ≤ max t x := le_max_right t x
      _ ≤ ts.foldl max (max t x) := le_foldl_max ts (max t x)
    · exact ih (max t a) x h

/-- The quiescent-point invariant of the world machine: the idle queue
plus the records held by open handles account exactly for every record
created (`_used_conn`), which itself never exceeds capacity. -/
def WInv (size : Int) (w : World) : Prop :=
  w.p.pool_size = size ∧
  (w.p.pool.length : Int) + (w.openCount : Int) = w.p.used_conn ∧
  w.p.used_conn ≤ size

/-- One whole-call step preserves the quiescent-point invariant. -/
lemma winv_step (size : Int) (w : World) (now : Nat) (op : Op)
    (h : WInv size w) : WInv size (w.step now op) := by
  obtain ⟨h1, h2, h3⟩ := h
  cases op with
  | opFetch block =>
    rcases fetchAux_cases fetchFuel w.p block now with
      ⟨c, rest, hp, heq⟩ | ⟨b, heq⟩ | heq | ⟨hc, heq⟩
    · have hlen : w.p.pool.length = rest.length + 1 := by rw [hp]; rfl
      refine ⟨?_, ?_, ?_⟩ <;>
        simp only [World.step, heq, World.openCount, List.countP_append,
          List.countP_cons, List.countP_nil, ScopedConnection.new,
          Option.isSome_some] <;>
        simp [World.openCount] at h2 ⊢ <;> omega
    · refine ⟨?_, ?_, ?_⟩ <;> simp only [World.step, heq] <;>
        [exact h1; exact h2; exact h3]
    · refine ⟨?_, ?_, ?_⟩ <;> simp only [World.step, heq] <;>
        [exact h1; exact h2; exact h3]
    · refine ⟨?_, ?_, ?_⟩ <;>
        simp only [World.step, heq, World.openCount, List.countP_append,
          List.countP_cons, List.countP_nil, ScopedConnection.new,
          Option.isSome_some] <;>
        simp [World.openCount] at h2 ⊢ <;> omega
  | opClose i =>
    cases hi : w.handles[i]? with
    | none =>
      refine ⟨?_, ?_, ?_⟩ <;> simp only [World.step, hi] <;>
        [exact h1; exact h2; exact h3]
    | some s =>
      obtain ⟨hu, hps, hpool, hsnd⟩ := close_fields w.p s now
      have hcnt := countP_set_eq (fun t => t.record.isSome)
        w.handles i s ⟨none, none, true⟩ hi
      cases hr : s.record with
      | some r =>
        rw [hr] at hpool
        simp only [hr, Option.isSome_some, Option.isSome_none,
          if_pos, if_neg, Bool.false_eq_true, if_false] at hcnt
        refine ⟨?_, ?_, ?_⟩ <;>
          simp only [World.step, hi, hsnd, World.openCount] <;>
          simp [hps, hu, hpool, World.openCount] at h2 ⊢ <;> omega
      | none =>
        rw [hr] at hpool
        simp only [hr, Option.isSome_none, Bool.false_eq_true, if_false] at hcnt
        refine ⟨?_, ?_, ?_⟩ <;>
          simp only [World.step, hi, hsnd, World.openCount] <;>
          simp [hps, hu, hpool, World.openCount] at h2 ⊢ <;> omega

/-- Runs preserve the quiescent-point invariant. -/
lemma winv_run (size : Int) (ops : List (Op × Nat)) :
    ∀ w : World, WInv size w → WInv size (w.run ops) := by
  induction ops with
  | nil => intro w h; exact h
  | cons x rest ih => intro w h; exact ih _ (winv_step size w x.2 x.1 h)

/-- One whole-call step: the used counter never decreases, capacity never
changes, and at capacity the counter stays put. -/
lemma step_used (w : World) (now : Nat) (op : Op) :
    w.p.used_conn ≤ (w.step now op).p.used_conn ∧
    (w.step now op).p.pool_size = w.p.pool_size ∧
    (w.p.pool_size ≤ w.p.used_conn → (w.step now op).p.used_conn = w.p.used_conn) := by
  cases op with
  | opFetch block =>
    rcases fetchAux_cases fetchFuel w.p block now with
      ⟨c, rest, hp, heq⟩ | ⟨b, heq⟩ | heq | ⟨hc, heq⟩ <;>
      refine ⟨?_, ?_, ?_⟩ <;> simp [World.step, heq] <;> intros <;> omega
  | opClose i =>
    cases hi : w.handles[i]? with
    | none => refine ⟨?_, ?_, ?_⟩ <;> simp [World.step, hi]
    | some s =>
      obtain ⟨hu, hps, hpool, hsnd⟩ := close_fields w.p s now
      refine ⟨?_, ?_, ?_⟩ <;> simp [World.step, hi, hu, hps]

/-- Runs: the used counter never decreases, capacity never changes, and
at capacity the counter stays put. -/
lemma run_used (ops : List (Op × Nat)) : ∀ w : World,
    w.p.used_conn ≤ (w.run ops).p.used_conn ∧
    (w.run ops).p.pool_size = w.p.pool_size ∧
    (w.p.pool_size ≤ w.p.used_conn → (w.run ops).p.used_conn = w.p.used_conn) := by
  induction ops with
  | nil => intro w; exact ⟨le_refl _, rfl, fun _ => rfl⟩
  | cons x rest ih =>
    intro w
    obtain ⟨s1, s2, s3⟩ := step_used w x.2 x.1
    obtain ⟨r1, r2, r3⟩ := ih (w.step x.2 x.1)
    refine ⟨le_trans s1 r1, r2.trans s2, ?_⟩
    intro hfull
    have hs := s3 hfull
    have : (w.step x.2 x.1).p.pool_size ≤ (w.step x.2 x.1).p.used_conn := by omega
    have hr := r3 this
    simp only [World.run]
    omega

/-- The used counter in the atomic machine stays within `[0, capacity]`,
and the capacity is never mutated. -/
lemma atomicRun_inv (evs : List AtomicEv) : ∀ p : ConnectionPool,
    0 ≤ p.used_conn → p.used_conn ≤ p.pool_size →
    0 ≤ (atomicRun p evs).used_conn ∧
    (atomicRun p evs).used_conn ≤ (atomicRun p evs).pool_size ∧
    (atomicRun p evs).pool_size = p.pool_size := by
  induction evs with
  | nil => intro p h0 h1; exact ⟨h0, h1, rfl⟩
  | cons e rest ih =>
    intro p h0 h1
    have hstep : 0 ≤ (atomicStep p e).used_conn ∧
        (atomicStep p e).used_conn ≤ (atomicStep p e).pool_size ∧
        (atomicStep p e).pool_size = p.pool_size := by
      cases e with
      | evIncUsed =>
        by_cases hc : p.used_conn < p.pool_size <;>
          simp [atomicStep, ConnectionPool.inc_used, hc] <;> omega
      | evDecUsed =>
        by_cases hz : p.used_conn = 0 <;>
          simp [atomicStep, ConnectionPool.dec_used, hz] <;> omega
      | evGet => exact ⟨h0, h1, rfl⟩
      | evPut r => exact ⟨h0, h1, rfl⟩
    obtain ⟨g0, g1, g2⟩ := ih (atomicStep p e) hstep.1 hstep.2.1
    exact ⟨g0, g1, g2.trans hstep.2.2⟩

/-- Replay of `record_duration` calls against the stats store. -/
def recordRun (m : DurStore) : List (Option Int × Duration) → DurStore
  | [] => m
  | e :: rest => recordRun (record_duration m e.1 e.2) rest

/-- Replaying `record_duration` calls keeps every key's history within
the cap. -/
lemma recordRun_len (entries : List (Option Int × Duration)) :
    ∀ m : DurStore, (∀ k, (dlookup m k).length ≤ historyCap) →
      ∀ k, (dlookup (recordRun m entries) k).length ≤ historyCap := by
  induction entries with
  | nil => intro m h k; exact h k
  | cons e rest ih =>
    intro m h k
    refine ih (record_duration m e.1 e.2) ?_ k
    intro k'
    by_cases hk : k' = e.1
    · rw [hk, dlookup_record_duration]
      have hcur := h e.1
      have hcap : historyCap = 10000 := rfl
      by_cases hc : historyCap ≤ (dlookup m e.1).length
      · rw [if_pos hc]
        simp [List.length_tail]
        omega
      · rw [if_neg hc]
        simp
        omega
    · rw [dlookup_record_duration_ne _ _ _ _ hk]
      exact h k'

/-- Total elapsed time of a history, defined when every entry is stopped. -/
def totalOf (ds : List Duration) : Int :=
  ds.foldr (fun d a => d.value.getD 0 + a) 0

/-- On a fully-stopped history the Python `sum` succeeds and equals the
total. -/
lemma sumValues_stopped (ds : List Duration)
    (h : ∀ d ∈ ds, d.end_ts.isSome = true) :
    sumValues ds = some (totalOf ds) := by
  induction ds with
  | nil => rfl
  | cons d rest ih =>
    obtain ⟨e, he⟩ := Option.isSome_iff_exists.mp (h d (by simp))
    have hv : d.value = some ((e : Int) - (d.start_ts : Int)) := by
      simp [Duration.value, he]
    have hr := ih (fun x hx => h x (by simp [hx]))
    simp [sumValues, hv, hr, totalOf]

/-- On a fully-stopped store the per-identity loop of `stats()` succeeds
and produces one entry per identity, in order. -/
lemma statsEntries_stopped (m : DurStore)
    (h : ∀ e ∈ m, ∀ d ∈ e.2, d.end_ts.isSome = true) :
    statsEntries m =
      some (m.map (fun e => (e.1, ⟨totalOf e.2, e.2.length⟩))) := by
  induction m with
  | nil => rfl
  | cons e rest ih =>
    obtain ⟨k, ds⟩ := e
    have h1 := sumValues_stopped ds (fun d hd => h (k, ds) (by simp) d hd)
    have h2 := ih (fun x hx d hd => h x (by simp [hx]) d hd)
    simp [statsEntries, h1, h2]

/-!  The claims. -/

/-- C1: over any interleaving of atomic pool events by any number of
callers, the used-connection counter stays within `[0, pool_size]`;
`_inc_used` is the atomic check-and-increment and fails once the counter
has reached `pool_size`; and a `fetch` creates a new `ConnectionRecord`
only when the counter was strictly below capacity, incrementing it by
exactly one. -/
theorem claim_C1 :
    (∀ (uri : String) (size recycle : Int) (wt : Nat) (evs : List AtomicEv),
      0 ≤ size →
      0 ≤ (atomicRun (ConnectionPool.init uri size recycle wt) evs).used_conn ∧
      (atomicRun (ConnectionPool.init uri size recycle wt) evs).used_conn ≤ size) ∧
    (∀ q : ConnectionPool, q.pool_size ≤ q.used_conn →
      q.inc_used = (q, false)) ∧
    (∀ (fuel : Nat) (q : ConnectionPool) (block : Bool) (now : Nat)
      (r : ConnectionRecord),
      (fetchAux fuel q block now).outcome = FetchOutcome.gotNew r →
      q.used_conn < q.pool_size ∧
      (fetchAux fuel q block now).pool.used_conn = q.used_conn + 1) := by
  refine ⟨?_, ?_, ?_⟩
  · intro uri size recycle wt evs hsz
    obtain ⟨g0, g1, g2⟩ := atomicRun_inv evs (ConnectionPool.init uri size recycle wt)
      (by simp [ConnectionPool.init]) (by simpa [ConnectionPool.init] using hsz)
    refine ⟨g0, ?_⟩
    have : (ConnectionPool.init uri size recycle wt).pool_size = size := rfl
    omega
  · intro q h
    simp [ConnectionPool.inc_used, not_lt.mpr h]
  · intro fuel q block now r h
    rcases fetchAux_cases fuel q block now with
      ⟨c, rest, hp, heq⟩ | ⟨b, heq⟩ | heq | ⟨hc, heq⟩
    · rw [heq] at h; simp at h
    · rw [heq] at h; simp at h
    · rw [heq] at h; simp at h
    · exact ⟨hc, by rw [heq]⟩

/-- C1 witness: a concrete event sequence on a capacity-3 pool. -/
theorem claim_C1_witness :
    0 ≤ (atomicRun (ConnectionPool.init "u" 3 (-1) 10)
        [AtomicEv.evIncUsed, AtomicEv.evDecUsed, AtomicEv.evIncUsed,
         AtomicEv.evPut ⟨0, "u", -1, 0⟩, AtomicEv.evGet]).used_conn ∧
    (atomicRun (ConnectionPool.init "u" 3 (-1) 10)
        [AtomicEv.evIncUsed, AtomicEv.evDecUsed, AtomicEv.evIncUsed,
         AtomicEv.evPut ⟨0, "u", -1, 0⟩, AtomicEv.evGet]).used_conn ≤ 3 :=
  claim_C1.1 "u" 3 (-1) 10
    [AtomicEv.evIncUsed, AtomicEv.evDecUsed, AtomicEv.evIncUsed,
     AtomicEv.evPut ⟨0, "u", -1, 0⟩, AtomicEv.evGet] (by decide)

/-- C2 counterexample: after one fetch on a capacity-1 pool (a reachable
state at capacity with an empty idle queue), a `fetch(block=False)` call
does execute the blocking timed wait on the idle queue — the waiting code
path is reachable for `block=False`, contradicting the claim. -/
theorem claim_C2_counterexample :
    (World.run (World.init "u" 1 (-1) 10) [(Op.opFetch false, 0)]).p.pool = [] ∧
    (World.run (World.init "u" 1 (-1) 10) [(Op.opFetch false, 0)]).p.used_conn =
      (World.run (World.init "u" 1 (-1) 10) [(Op.opFetch false, 0)]).p.pool_size ∧
    (fetchAux fetchFuel
      (World.run (World.init "u" 1 (-1) 10) [(Op.opFetch false, 0)]).p
      false 1).waited = true := by decide

/-- C2 amended: when the pool is at capacity with an empty idle queue,
`fetch(block=False)` falls through to a blocking retry — it performs a
blocking wait of up to `wait_timeout` on the idle queue and then fails
with `ConnectionPoolError`; only the initial poll is non-blocking. -/
theorem claim_C2 : ∀ (fuel : Nat) (p : ConnectionPool) (now : Nat),
    p.pool = [] → p.pool_size ≤ p.used_conn → 0 < p.used_conn →
    fetchAux (fuel + 2) p false now = ⟨p, FetchOutcome.poolError, true⟩ := by
  intro fuel p now hp hfull hpos
  have hE : p.isEmpty = false := by
    simp [ConnectionPool.isEmpty, hp]
    omega
  have hF : p.isFull = true := by
    simp [ConnectionPool.isFull]
    omega
  have h2 : fetchAux (fuel + 1 + 1) p false now = fetchAux (fuel + 1) p true now := by
    simp [fetchAux, hE, hp, hF]
  have h1 : fetchAux (fuel + 1) p true now = ⟨p, FetchOutcome.poolError, true⟩ := by
    simp [fetchAux, hE, hp]
  rw [show fuel + 2 = fuel + 1 + 1 from rfl, h2, h1]

/-- A concrete at-capacity pool with an empty idle queue, for the C2
witness. -/
def c2P : ConnectionPool :=
  { uri := "u", pool_size := 1, recycle := -1, wait_timeout := 10,
    used_conn := 1, pool := [], durations := [] }

/-- C2 witness: the amended behavior at a concrete at-capacity pool. -/
theorem claim_C2_witness :
    fetchAux 2 c2P false 0 = ⟨c2P, FetchOutcome.poolError, true⟩ :=
  claim_C2 0 c2P 0 rfl (by decide) (by decide)

/-- The capacity-1 fetch used by the C3 evaluation. -/
def c3Fetch : FetchResult :=
  fetchAux fetchFuel (ConnectionPool.init "uri" 1 (-1) 10) false 0

/-- The record that fetch creates in the C3 evaluation. -/
def c3Record : ConnectionRecord := ⟨0, "uri", -1, 0⟩

/-- Closing the C3 handle at time 5. -/
def c3Close : ConnectionPool × ScopedConnection :=
  ScopedConnection.close c3Fetch.pool (ScopedConnection.new c3Record 0) 5

/-- C3: evaluation at the failing input.  A capacity-1 pool hands out a
fresh record; the handle holds that record; yet after `close` the stats
store has nothing under the record's identity — the stopped duration was
recorded under the key `None`, because `close` nulls `self._connection`
before passing it to `record_duration`. -/
theorem claim_C3 :
    c3Fetch.outcome = FetchOutcome.gotNew c3Record ∧
    (ScopedConnection.new c3Record 0).record = some c3Record ∧
    dlookup c3Close.1.durations (some c3Record.conn_id) = [] ∧
    dlookup c3Close.1.durations none = [⟨0, some 5⟩] := by decide

/-- C4: closing a handle that holds a record releases it into the idle
queue exactly once, and a second close of the resulting handle is a
complete no-op: same pool (idle queue and stats included) and same
handle. -/
theorem claim_C4 : ∀ (p : ConnectionPool) (s : ScopedConnection)
    (r : ConnectionRecord) (t1 t2 : Nat), s.record = some r →
    (ScopedConnection.close p s t1).1.pool = p.pool ++ [r] ∧
    ScopedConnection.close (ScopedConnection.close p s t1).1
        (ScopedConnection.close p s t1).2 t2 =
      ((ScopedConnection.close p s t1).1, (ScopedConnection.close p s t1).2) := by
  intro p s r t1 t2 hr
  obtain ⟨hu, hps, hpool, hsnd⟩ := close_fields p s t1
  constructor
  · rw [hpool, hr]
  · rw [hsnd]
    simp [ScopedConnection.close]

/-- C4 witness: a concrete handle closed twice. -/
theorem claim_C4_witness :
    (ScopedConnection.close (ConnectionPool.init "u" 1 (-1) 10)
        (ScopedConnection.new ⟨0, "u", -1, 0⟩ 0) 5).1.pool
      = (ConnectionPool.init "u" 1 (-1) 10).pool ++ [⟨0, "u", -1, 0⟩] :=
  (claim_C4 (ConnectionPool.init "u" 1 (-1) 10)
    (ScopedConnection.new ⟨0, "u", -1, 0⟩ 0) ⟨0, "u", -1, 0⟩ 5 7 rfl).1

/-- C5: every use of a closed handle — `connection()`, `client()`, or an
attribute access forwarded through `__getattr__` — fails with the
"Connection has been closed." error. -/
theorem claim_C5 : ∀ (s : ScopedConnection) (item : String), s.closed = true →
    s.connection = Except.error "Connection has been closed." ∧
    s.client = Except.error "Connection has been closed." ∧
    s.forward item = Except.error "Connection has been closed." := by
  intro s item h
  refine ⟨?_, ?_, ?_⟩ <;>
    simp [ScopedConnection.connection, ScopedConnection.client,
      ScopedConnection.forward, h]

/-- C5 witness: a concrete closed handle rejects every use. -/
theorem claim_C5_witness :
    ScopedConnection.connection ⟨none, none, true⟩ =
      Except.error "Connection has been closed." ∧
    ScopedConnection.client ⟨none, none, true⟩ =
      Except.error "Connection has been closed." ∧
    ScopedConnection.forward ⟨none, none, true⟩ "search" =
      Except.error "Connection has been closed." :=
  claim_C5 ⟨none, none, true⟩ "search" rfl

/-- The capacity-2 pool of the C6 scenario. -/
def c6P0 : ConnectionPool := ConnectionPool.init "uri" 2 (-1) 10

/-- First, second and third fetch of the C6 scenario, no releases. -/
def c6F1 : FetchResult := fetchAux fetchFuel c6P0 false 0

/-- Second fetch of the C6 scenario. -/
def c6F2 : FetchResult := fetchAux fetchFuel c6F1.pool false 1

/-- Third fetch of the C6 scenario. -/
def c6F3 : FetchResult := fetchAux fetchFuel c6F2.pool false 2

/-- C6: a blocking fetch against a pool at capacity with an empty idle
queue and no releases fails with `ConnectionPoolError` after the wait
times out, leaving the pool unchanged (no record created); concretely,
with capacity 2 the first two fetches each create a new record and the
third fails with the pool-exhausted error without creating a third. -/
theorem claim_C6 :
    (∀ (fuel : Nat) (p : ConnectionPool) (now : Nat),
      p.pool = [] → p.pool_size ≤ p.used_conn → 0 < p.used_conn →
      fetchAux (fuel + 1) p true now = ⟨p, FetchOutcome.poolError, true⟩) ∧
    c6F1.outcome = FetchOutcome.gotNew ⟨0, "uri", -1, 0⟩ ∧
    c6F1.pool.used_conn = 1 ∧
    c6F2.outcome = FetchOutcome.gotNew ⟨1, "uri", -1, 1⟩ ∧
    c6F2.pool.used_conn = 2 ∧
    c6F3.outcome = FetchOutcome.poolError ∧
    c6F3.pool = c6F2.pool := by
  constructor
  · intro fuel p now hp hfull hpos
    have hE : p.isEmpty = false := by
      simp [ConnectionPool.isEmpty, hp]
      omega
    simp [fetchAux, hE, hp]
  · decide

/-- C6 witness: the blocking-failure statement at the scenario's
at-capacity pool. -/
theorem claim_C6_witness :
    fetchAux 1 c6F2.pool true 7 = ⟨c6F2.pool, FetchOutcome.poolError, true⟩ :=
  claim_C6.1 0 c6F2.pool 7 (by decide) (by decide) (by decide)

/-- C7: replaying any sequence of `record_duration` calls from a fresh
store leaves every identity's history within 10000 entries; an append
made when the history holds exactly 10000 entries evicts the oldest
(head) entry and appends at the tail; other identities are untouched. -/
theorem claim_C7 :
    (∀ (entries : List (Option Int × Duration)) (k : Option Int),
      (dlookup (recordRun [] entries) k).length ≤ historyCap) ∧
    (∀ (m : DurStore) (k : Option Int) (d d0 : Duration) (ds : List Duration),
      dlookup m k = d0 :: ds → (d0 :: ds).length = historyCap →
      dlookup (record_duration m k d) k = ds ++ [d]) ∧
    (∀ (m : DurStore) (k k' : Option Int) (d : Duration), k' ≠ k →
      dlookup (record_duration m k d) k' = dlookup m k') := by
  refine ⟨?_, ?_, ?_⟩
  · intro entries k
    refine recordRun_len entries [] ?_ k
    intro k'
    simp [dlookup, historyCap]
  · intro m k d d0 ds hl hlen
    rw [dlookup_record_duration, hl]
    rw [if_pos (le_of_eq hlen.symm)]
    rfl
  · intro m k k' d h
    exact dlookup_record_duration_ne m k k' d h

/-- C7 witness: the 10001st duration evicts the first of 10000. -/
theorem claim_C7_witness :
    dlookup (record_duration
        [(some 0, List.replicate 10000 (⟨0, some 1⟩ : Duration))]
        (some 0) ⟨2, some 3⟩) (some 0)
      = List.replicate 9999 (⟨0, some 1⟩ : Duration) ++ [⟨2, some 3⟩] :=
  claim_C7.2.1 [(some 0, List.replicate 10000 (⟨0, some 1⟩ : Duration))]
    (some 0) ⟨2, some 3⟩ ⟨0, some 1⟩ (List.replicate 9999 ⟨0, some 1⟩)
    (by
      have hL : dlookup [(some 0, List.replicate 10000 (⟨0, some 1⟩ : Duration))]
          (some 0) = List.replicate 10000 (⟨0, some 1⟩ : Duration) := rfl
      rw [hL, show (10000 : Nat) = 9999 + 1 from rfl, List.replicate_succ])
    (by rw [List.length_cons, List.length_replicate]; rfl)

/-- C8: `stats()` fails (the `max` of an empty sequence) when no duration
has ever been recorded; on a nonempty store of stopped durations it
returns one entry per identity carrying that identity's total elapsed
time and call count, the number of tracked identities, and a maximum that
is the greatest per-identity total. -/
theorem claim_C8 :
    stats ([] : DurStore) = none ∧
    (∀ m : DurStore, m ≠ [] →
      (∀ e ∈ m, ∀ d ∈ e.2, d.end_ts.isSome = true) →
      ∃ out : StatsOut,
        stats m = some out ∧
        out.connections = m.map (fun e => (e.1, ⟨totalOf e.2, e.2.length⟩)) ∧
        out.num = m.length ∧
        out.maxTime ∈ out.connections.map (fun e => e.2.total_time) ∧
        (∀ t ∈ out.connections.map (fun e => e.2.total_time), t ≤ out.maxTime)) := by
  constructor
  · rfl
  · intro m hne hstop
    have hE := statsEntries_stopped m hstop
    have hlm : ∃ t0 ts,
        (m.map (fun e => ((e.1, ⟨totalOf e.2, e.2.length⟩) : Option Int × StatEntry))).map
          (fun e => e.2.total_time) = t0 :: ts := by
      cases m with
      | nil => exact absurd rfl hne
      | cons a rest => exact ⟨_, _, rfl⟩
    obtain ⟨t0, ts, hts⟩ := hlm
    refine ⟨⟨m.map (fun e => (e.1, ⟨totalOf e.2, e.2.length⟩)), ts.foldl max t0,
      m.length⟩, ?_, rfl, rfl, ?_, ?_⟩
    · simp [stats, hE, hts, listMax]
    · rw [hts]
      rcases foldl_max_mem ts t0 with h | h
      · rw [h]; exact List.mem_cons_self _ _
      · exact List.mem_cons_of_mem _ h
    · rw [hts]
      intro t ht
      rcases List.mem_cons.mp ht with h | h
      · rw [h]; exact le_foldl_max ts t0
      · exact mem_le_foldl_max ts t0 t h

/-- C8 witness: a store with one recorded, stopped duration has defined
stats. -/
theorem claim_C8_witness :
    (stats [((none : Option Int), [(⟨0, some 5⟩ : Duration)])]).isSome = true := by
  obtain ⟨out, h1, -, -, -, -⟩ :=
    claim_C8.2 [((none : Option Int), [(⟨0, some 5⟩ : Duration)])]
      (by decide) (by decide)
  rw [h1]
  rfl

/-- The two-call run refuting C9: fetch once, close the handle. -/
def c9W : World :=
  World.run (World.init "uri" 1 (-1) 10) [(Op.opFetch false, 0), (Op.opClose 0, 3)]

/-- C9 counterexample: after one fetch/close cycle on a capacity-1 pool
(a quiescent point), the idle queue holds one record while `_used_conn`
is still 1, so `idle_queue.size() + in_use_count` exceeds the capacity —
the claimed bound fails, and nothing was dropped on release. -/
theorem claim_C9_counterexample :
    ¬ ((c9W.p.pool.length : Int) + c9W.p.used_conn ≤ c9W.p.pool_size) := by
  decide

/-- C9 amended: release never drops a record — the idle FIFO is unbounded
(`queue.Queue()` with no `maxsize`), so `put` always enqueues and the
`except queue.Full` branch is dead.  The quiescent invariant actually
maintained is `idle_queue.size() + open_handles = in_use_count`; hence
`idle_queue.size() ≤ in_use_count ≤ capacity` and
`idle_queue.size() + in_use_count ≤ 2·capacity`, but not the claimed
`idle_queue.size() + in_use_count ≤ capacity`. -/
theorem claim_C9 : ∀ (uri : String) (size recycle : Int) (wt : Nat)
    (ops : List (Op × Nat)), 0 ≤ size →
    (((World.init uri size recycle wt).run ops).p.pool.length : Int) +
        (((World.init uri size recycle wt).run ops).openCount : Int) =
      ((World.init uri size recycle wt).run ops).p.used_conn ∧
    (((World.init uri size recycle wt).run ops).p.pool.length : Int) ≤
      ((World.init uri size recycle wt).run ops).p.used_conn ∧
    ((World.init uri size recycle wt).run ops).p.used_conn ≤ size ∧
    (((World.init uri size recycle wt).run ops).p.pool.length : Int) +
        ((World.init uri size recycle wt).run ops).p.used_conn ≤ 2 * size ∧
    (∀ (q : ConnectionPool) (r : ConnectionRecord),
      (q.release r).pool = q.pool ++ [r]) := by
  intro uri size recycle wt ops hsz
  have hinv : WInv size ((World.init uri size recycle wt).run ops) := by
    refine winv_run size ops _ ⟨rfl, ?_, ?_⟩
    · simp [World.init, ConnectionPool.init, World.openCount]
    · simpa [World.init, ConnectionPool.init] using hsz
  obtain ⟨h1, h2, h3⟩ := hinv
  have hopen : 0 ≤ (((World.init uri size recycle wt).run ops).openCount : Int) :=
    Int.natCast_nonneg _
  have hlen : 0 ≤ ((((World.init uri size recycle wt).run ops).p.pool.length : Nat) : Int) :=
    Int.natCast_nonneg _
  refine ⟨h2, by omega, by omega, by omega, ?_⟩
  intro q r
  rfl

/-- C9 witness: the amended invariant at the fetch-close run. -/
theorem claim_C9_witness :
    ((c9W.p.pool.length : Int) + (c9W.openCount : Int) = c9W.p.used_conn) ∧
    c9W.p.used_conn ≤ 1 := by
  obtain ⟨h1, h2, h3, h4, h5⟩ :=
    claim_C9 "uri" 1 (-1) 10 [(Op.opFetch false, 0), (Op.opClose 0, 3)] (by decide)
  exact ⟨h1, h3⟩

/-- C10: over any sequence of fetch, close and release operations the
value returned by `count()` never decreases (`release` puts the record
back without touching the counter, and nothing calls `_dec_used`), and
once the counter equals `pool_size` it stays there forever. -/
theorem claim_C10 :
    (∀ (w : World) (ops : List (Op × Nat)),
      w.p.count ≤ (w.run ops).p.count ∧
      (w.p.count = w.p.pool_size → (w.run ops).p.count = w.p.pool_size)) ∧
    (∀ (q : ConnectionPool) (r : ConnectionRecord),
      (q.release r).count = q.count) ∧
    (∀ (p : ConnectionPool) (s : ScopedConnection) (now : Nat),
      (ScopedConnection.close p s now).1.count = p.count) := by
  refine ⟨?_, ?_, ?_⟩
  · intro w ops
    obtain ⟨r1, r2, r3⟩ := run_used ops w
    refine ⟨r1, ?_⟩
    intro hfull
    have hr := r3 (le_of_eq hfull.symm)
    simp only [ConnectionPool.count] at *
    omega
  · intro q r
    rfl
  · intro p s now
    exact (close_fields p s now).1

/-- The capacity-1 world after one fetch, used by the C10 witness. -/
def c10W : World := World.run (World.init "u" 1 (-1) 10) [(Op.opFetch false, 0)]

/-- C10 witness: a pool that has created its full capacity of records
keeps `count() = pool_size` across further closes and fetches. -/
theorem claim_C10_witness :
    (c10W.run [(Op.opClose 0, 1), (Op.opFetch false, 2)]).p.count = c10W.p.pool_size :=
  (claim_C10.1 c10W [(Op.opClose 0, 1), (Op.opFetch false, 2)]).2 (by decide)

end PoolSpec
